import Mathlib

/-!
Shallow embedding of the C API boundary layer in regex-capi/src/rure.rs.

The pattern-matching engine proper (bytes::Regex, Exec and their search
methods) is an external collaborator of that file, so engine operations
appear here as explicit function parameters; the concrete functions used
in witnesses model the engine's documented behaviour on specific
patterns.  Byte strings are represented as List Nat, machine sizes as
Nat, and out-parameters as explicit inputs and outputs.
-/

/-- Shape of a UTF-8 sequence, per leading byte: the number of
continuation bytes and the allowed range of the first continuation byte
(RFC 3629 table).  The validation itself is performed by the external
std function str::from_utf8 called at rure.rs lines 107 and 491; this
table and the two functions below model that validator. -/
def utf8Lead (b : Nat) : Option (Nat × Nat × Nat) :=
  if b ≤ 0x7F then some (0, 0x80, 0xBF)
  else if 0xC2 ≤ b ∧ b ≤ 0xDF then some (1, 0x80, 0xBF)
  else if b = 0xE0 then some (2, 0xA0, 0xBF)
  else if 0xE1 ≤ b ∧ b ≤ 0xEC then some (2, 0x80, 0xBF)
  else if b = 0xED then some (2, 0x80, 0x9F)
  else if 0xEE ≤ b ∧ b ≤ 0xEF then some (2, 0x80, 0xBF)
  else if b = 0xF0 then some (3, 0x90, 0xBF)
  else if 0xF1 ≤ b ∧ b ≤ 0xF3 then some (3, 0x80, 0xBF)
  else if b = 0xF4 then some (3, 0x80, 0x8F)
  else none

/-- Consume `n` continuation bytes, the first constrained to `[lo, hi]`
and the rest to `[0x80, 0xBF]`; returns the remaining bytes on
success. -/
def utf8Conts : List Nat → Nat → Nat → Nat → Option (List Nat)
  | l, 0, _, _ => some l
  | [], _ + 1, _, _ => none
  | c :: rest, n + 1, lo, hi =>
    if lo ≤ c ∧ c ≤ hi then utf8Conts rest n 0x80 0xBF else none

/-- UTF-8 validation loop.  `pos` is the byte offset of the sequence
currently examined; on failure the offset of the offending leading byte
is returned (the valid_up_to offset of std's Utf8Error).  Recursion is
on a fuel argument; every step consumes at least one byte, so fuel equal
to the length of the input (as supplied by `utf8Error`) is always
sufficient and the fuel-exhausted branch is unreachable from
`utf8Error`. -/
def utf8ErrorGo : Nat → List Nat → Nat → Option Nat
  | _, [], _ => none
  | 0, _ :: _, pos => some pos
  | fuel + 1, b :: rest, pos =>
    match utf8Lead b with
    | none => some pos
    | some (n, lo, hi) =>
      match utf8Conts rest n lo hi with
      | none => some pos
      | some rest2 => utf8ErrorGo fuel rest2 (pos + 1 + n)

/-- UTF-8 validation of a byte string: `none` when the bytes are valid
UTF-8, `some off` when the sequence starting at byte offset `off` is
invalid.  Models str::from_utf8 as used by rure_compile (rure.rs line
107) and rure_compile_set (line 491). -/
def utf8Error (l : List Nat) : Option Nat :=
  utf8ErrorGo l.length l 0

/-- The error channel of rure.rs (the Error type of the capi error
module, referenced at rure.rs lines 1, 112, 147, 496 and 539): no
error, a UTF-8 decoding error carrying the byte offset, or an engine
compile error carrying the engine's message. -/
inductive ErrorKind where
  | noErr : ErrorKind
  | str : Nat → ErrorKind
  | regex : String → ErrorKind
deriving DecidableEq, Repr

/-- The Options bag of rure.rs lines 21-24 and 72-79. -/
structure Options where
  size_limit : Nat
  dfa_size_limit : Nat
deriving DecidableEq, Repr

/-- The configuration handed to the engine's builder by rure_compile
(rure.rs lines 118-129) and rure_compile_set (lines 504-520): the two
size limits and the six flag booleans. -/
structure CompileConfig where
  size_limit : Nat
  dfa_size_limit : Nat
  case_insensitive : Bool
  multi_line : Bool
  dot_matches_new_line : Bool
  swap_greed : Bool
  ignore_whitespace : Bool
  unicode : Bool
deriving DecidableEq, Repr

/-- Builder configuration produced by rure_compile / rure_compile_set
from a flag bitset and an optional Options handle.  When no Options are
supplied the engine builder's own defaults apply, which coincide with
Options::default (rure.rs lines 72-79): 10 MiB and 2 MiB.  The flag
bits are RURE_FLAG_CASEI .. RURE_FLAG_UNICODE, bits 0..5 (rure.rs lines
34-40). -/
def mkConfig (flags : Nat) (options : Option Options) : CompileConfig :=
  { size_limit := match options with
      | some o => o.size_limit
      | none => 10 * 2 ^ 20
    dfa_size_limit := match options with
      | some o => o.dfa_size_limit
      | none => 2 * 2 ^ 20
    case_insensitive := flags.testBit 0
    multi_line := flags.testBit 1
    dot_matches_new_line := flags.testBit 2
    swap_greed := flags.testBit 3
    ignore_whitespace := flags.testBit 4
    unicode := flags.testBit 5 }

/-- An engine-compiled single-pattern matcher (bytes::Regex), abstract
except for its ordered sequence of optional capture-group names, which
the engine exposes through capture_names() (index 0 is the unnamed
whole-match group) and whose length is the engine's captures_len(). -/
structure EngineRegex where
  capture_names : List (Option String)
deriving DecidableEq, Repr

/-- Insert into the name table with HashMap semantics: a later insert of
the same key overwrites the earlier one. -/
def insertName (t : List (String × Nat)) (k : String) (v : Nat) :
    List (String × Nat) :=
  (t.filter (fun q => !(q.1 == k))) ++ [(k, v)]

/-- The name-to-index table built by rure_compile on success (rure.rs
lines 132-137): every named group, mapped to its zero-based index. -/
def buildNameTable (re : EngineRegex) : List (String × Nat) :=
  (re.capture_names.enum).foldl
    (fun t p =>
      match p.2 with
      | some n => insertName t n p.1
      | none => t)
    []

/-- The Regex handle of rure.rs lines 16-19: the engine object plus the
capture-name table. -/
structure Regex where
  re : EngineRegex
  capture_names : List (String × Nat)
deriving DecidableEq, Repr

/-- An engine Exec object (the low-level multi-pattern matcher of
rure.rs line 30), abstract for this layer. -/
structure Exec where
  id : Nat
deriving DecidableEq, Repr

/-- The RegexSet handle of rure.rs lines 29-32. -/
structure RegexSet where
  re : Exec
  pattern_count : Nat
deriving DecidableEq, Repr

/-- rure_compile (rure.rs lines 99-153).  `engineCompile` stands for the
engine's RegexBuilder::compile; `error` is the caller's error slot
(`none` models a null error pointer) and the returned second component
is the slot's content after the call.  The UTF-8 check happens first
(lines 107-117); on engine failure the regex kind is written (lines
144-151); on success the name table is built and the slot is not
touched (lines 131-143). -/
def rure_compile
    (engineCompile : List Nat → CompileConfig → Except String EngineRegex)
    (pattern : List Nat) (flags : Nat) (options : Option Options)
    (error : Option ErrorKind) : Option Regex × Option ErrorKind :=
  match utf8Error pattern with
  | some off => (none, error.map fun _ => ErrorKind.str off)
  | none =>
    match engineCompile pattern (mkConfig flags options) with
    | Except.ok re =>
      (some { re := re, capture_names := buildNameTable re }, error)
    | Except.error msg => (none, error.map fun _ => ErrorKind.regex msg)

/-- The first UTF-8 failure among a list of patterns, in order: models
the validation loop of rure_compile_set (rure.rs lines 489-502), whose
first invalid pattern aborts the whole construction. -/
def firstPatternsUtf8Error : List (List Nat) → Option Nat
  | [] => none
  | p :: rest =>
    match utf8Error p with
    | some off => some off
    | none => firstPatternsUtf8Error rest

/-- rure_compile_set (rure.rs lines 473-545).  `engineBuildSet` stands
for ExecBuilder::build on the collected patterns; every pattern is
UTF-8-validated in order before the engine is consulted, and on success
the handle records the pattern count. -/
def rure_compile_set
    (engineBuildSet : List (List Nat) → CompileConfig → Except String Exec)
    (patterns : List (List Nat)) (flags : Nat) (options : Option Options)
    (error : Option ErrorKind) : Option RegexSet × Option ErrorKind :=
  match firstPatternsUtf8Error patterns with
  | some off => (none, error.map fun _ => ErrorKind.str off)
  | none =>
    match engineBuildSet patterns (mkConfig flags options) with
    | Except.ok ex =>
      (some { re := ex, pattern_count := patterns.length }, error)
    | Except.error msg => (none, error.map fun _ => ErrorKind.regex msg)

/-- A concrete always-succeeding engine compile (one unnamed group),
used to exercise the success path of rure_compile in witnesses. -/
def engOk : List Nat → CompileConfig → Except String EngineRegex :=
  fun _ _ => Except.ok ⟨[none]⟩

/-- A concrete always-failing engine compile, used to exercise the
engine-failure path of rure_compile in witnesses. -/
def engErr : List Nat → CompileConfig → Except String EngineRegex :=
  fun _ _ => Except.error "syntax error"

/-- A concrete always-succeeding engine set builder, used in
witnesses. -/
def engSetOk : List (List Nat) → CompileConfig → Except String Exec :=
  fun _ _ => Except.ok ⟨0⟩

theorem firstPatternsUtf8Error_append (pre : List (List Nat))
    (bad : List Nat) (post : List (List Nat)) (off : Nat)
    (hpre : ∀ p ∈ pre, utf8Error p = none)
    (hbad : utf8Error bad = some off) :
    firstPatternsUtf8Error (pre ++ bad :: post) = some off := by
  induction pre with
  | nil => simp [firstPatternsUtf8Error, hbad]
  | cons p ps ih =>
    have hp : utf8Error p = none := hpre p (by simp)
    simp only [List.cons_append, firstPatternsUtf8Error, hp]
    exact ih (fun q hq => hpre q (by simp [hq]))

/-- Claim C8: a non-UTF-8 pattern makes rure_compile fail with the
encoding-error (str) kind, never the compile-failure kind, returning a
null handle, and the engine is never consulted (the result is the same
for every engine); rure_compile_set validates its patterns in order and
the first invalid one aborts the whole construction the same way. -/
theorem rure_compile_invalid_utf8 :
    ∀ (eng : List Nat → CompileConfig → Except String EngineRegex)
      (engS : List (List Nat) → CompileConfig → Except String Exec)
      (flags : Nat) (opts : Option Options) (slot : Option ErrorKind),
    (∀ pat off, utf8Error pat = some off →
      (rure_compile eng pat flags opts slot).1 = none ∧
      (rure_compile eng pat flags opts slot).2 =
        slot.map (fun _ => ErrorKind.str off) ∧
      ∀ eng2, rure_compile eng2 pat flags opts slot =
        rure_compile eng pat flags opts slot) ∧
    (∀ pre bad post off, (∀ p ∈ pre, utf8Error p = none) →
      utf8Error bad = some off →
      (rure_compile_set engS (pre ++ bad :: post) flags opts slot).1 =
        none ∧
      (rure_compile_set engS (pre ++ bad :: post) flags opts slot).2 =
        slot.map (fun _ => ErrorKind.str off) ∧
      ∀ engS2, rure_compile_set engS2 (pre ++ bad :: post) flags opts
        slot = rure_compile_set engS (pre ++ bad :: post) flags opts
        slot) := by
  intro eng engS flags opts slot
  constructor
  · intro pat off h
    refine ⟨?_, ?_, ?_⟩ <;> simp [rure_compile, h]
  · intro pre bad post off hpre hbad
    have h := firstPatternsUtf8Error_append pre bad post off hpre hbad
    refine ⟨?_, ?_, ?_⟩ <;> simp [rure_compile_set, h]

theorem rure_compile_invalid_utf8_witness :
    (rure_compile engOk [0x80] 0 none (some ErrorKind.noErr)).1 = none ∧
    (rure_compile engOk [0x80] 0 none (some ErrorKind.noErr)).2 =
      some (ErrorKind.str 0) ∧
    (rure_compile_set engSetOk [[97], [0x80]] 0 none
      (some ErrorKind.noErr)).1 = none ∧
    (rure_compile_set engSetOk [[97], [0x80]] 0 none
      (some ErrorKind.noErr)).2 = some (ErrorKind.str 0) := by
  have h := rure_compile_invalid_utf8 engOk engSetOk 0 none
    (some ErrorKind.noErr)
  have h1 := h.1 [0x80] 0 (by decide)
  have h2 := h.2 [[97]] [0x80] [] 0 (by decide) (by decide)
  exact ⟨h1.1, h1.2.1, h2.1, h2.2.1⟩

/-- Claim C1 (amended): for both fallible constructors the error slot,
when provided, is overwritten on failure with the failure's kind (str
for UTF-8 failures, regex for engine failures, overwriting any prior
value including a prior non-none one), but on success the slot is left
unchanged rather than being reset to the none kind; a null slot is
never written. -/
theorem rure_compile_error_slot_policy :
    ∀ (eng : List Nat → CompileConfig → Except String EngineRegex)
      (engS : List (List Nat) → CompileConfig → Except String Exec)
      (pat : List Nat) (pats : List (List Nat)) (flags : Nat)
      (opts : Option Options) (prev : ErrorKind),
    (((rure_compile eng pat flags opts (some prev)).1.isSome = true →
        (rure_compile eng pat flags opts (some prev)).2 = some prev) ∧
     ((rure_compile eng pat flags opts (some prev)).1 = none →
        ∃ k, (rure_compile eng pat flags opts (some prev)).2 = some k ∧
          k ≠ ErrorKind.noErr) ∧
     (∀ off, utf8Error pat = some off →
        (rure_compile eng pat flags opts (some prev)).2 =
          some (ErrorKind.str off)) ∧
     (∀ msg, utf8Error pat = none →
        eng pat (mkConfig flags opts) = Except.error msg →
        (rure_compile eng pat flags opts (some prev)).2 =
          some (ErrorKind.regex msg)) ∧
     (rure_compile eng pat flags opts none).2 = none) ∧
    (((rure_compile_set engS pats flags opts (some prev)).1.isSome =
        true →
        (rure_compile_set engS pats flags opts (some prev)).2 =
          some prev) ∧
     ((rure_compile_set engS pats flags opts (some prev)).1 = none →
        ∃ k, (rure_compile_set engS pats flags opts (some prev)).2 =
          some k ∧ k ≠ ErrorKind.noErr) ∧
     (∀ off, firstPatternsUtf8Error pats = some off →
        (rure_compile_set engS pats flags opts (some prev)).2 =
          some (ErrorKind.str off)) ∧
     (∀ msg, firstPatternsUtf8Error pats = none →
        engS pats (mkConfig flags opts) = Except.error msg →
        (rure_compile_set engS pats flags opts (some prev)).2 =
          some (ErrorKind.regex msg)) ∧
     (rure_compile_set engS pats flags opts none).2 = none) := by
  intro eng engS pat pats flags opts prev
  constructor
  · refine ⟨?_, ?_, ?_, ?_, ?_⟩
    · intro h
      rcases hu : utf8Error pat with _ | off
      · rcases hc : eng pat (mkConfig flags opts) with msg | re
        · simp [rure_compile, hu, hc] at h
        · simp [rure_compile, hu, hc]
      · simp [rure_compile, hu] at h
    · intro h
      rcases hu : utf8Error pat with _ | off
      · rcases hc : eng pat (mkConfig flags opts) with msg | re
        · exact ⟨ErrorKind.regex msg, by simp [rure_compile, hu, hc]⟩
        · simp [rure_compile, hu, hc] at h
      · exact ⟨ErrorKind.str off, by simp [rure_compile, hu]⟩
    · intro off h
      simp [rure_compile, h]
    · intro msg hu hc
      simp [rure_compile, hu, hc]
    · rcases hu : utf8Error pat with _ | off
      · rcases hc : eng pat (mkConfig flags opts) with msg | re <;>
          simp [rure_compile, hu, hc]
      · simp [rure_compile, hu]
  · refine ⟨?_, ?_, ?_, ?_, ?_⟩
    · intro h
      rcases hu : firstPatternsUtf8Error pats with _ | off
      · rcases hc : engS pats (mkConfig flags opts) with msg | ex
        · simp [rure_compile_set, hu, hc] at h
        · simp [rure_compile_set, hu, hc]
      · simp [rure_compile_set, hu] at h
    · intro h
      rcases hu : firstPatternsUtf8Error pats with _ | off
      · rcases hc : engS pats (mkConfig flags opts) with msg | ex
        · exact ⟨ErrorKind.regex msg, by simp [rure_compile_set, hu, hc]⟩
        · simp [rure_compile_set, hu, hc] at h
      · exact ⟨ErrorKind.str off, by simp [rure_compile_set, hu]⟩
    · intro off h
      simp [rure_compile_set, h]
    · intro msg hu hc
      simp [rure_compile_set, hu, hc]
    · rcases hu : firstPatternsUtf8Error pats with _ | off
      · rcases hc : engS pats (mkConfig flags opts) with msg | ex <;>
          simp [rure_compile_set, hu, hc]
      · simp [rure_compile_set, hu]

theorem rure_compile_error_slot_policy_witness :
    (rure_compile engOk [97] 0 none (some (ErrorKind.str 5))).2 =
      some (ErrorKind.str 5) ∧
    (∃ k, (rure_compile engErr [97] 0 none (some ErrorKind.noErr)).2 =
      some k ∧ k ≠ ErrorKind.noErr) := by
  constructor
  · exact (rure_compile_error_slot_policy engOk engSetOk [97] [] 0 none
      (ErrorKind.str 5)).1.1 (by decide)
  · exact (rure_compile_error_slot_policy engErr engSetOk [97] [] 0 none
      ErrorKind.noErr).1.2.1 (by decide)

/-- Claim C1, counterexample to the claim as stated: a successful
rure_compile call leaves a prior non-none error-slot value in place
instead of overwriting it with the none kind. -/
theorem rure_compile_success_slot_unchanged_cex :
    (rure_compile engOk [97] 0 none
      (some (ErrorKind.regex "prior"))).1.isSome = true ∧
    (rure_compile engOk [97] 0 none
      (some (ErrorKind.regex "prior"))).2 =
      some (ErrorKind.regex "prior") ∧
    ErrorKind.regex "prior" ≠ ErrorKind.noErr := by
  decide

/-- The CaptureBuffer of rure.rs line 49: a flat vector of optional
byte offsets, slot 2*i the start of group i and slot 2*i+1 its end. -/
structure Captures where
  slots : List (Option Nat)
deriving DecidableEq, Repr

/-- The engine's captures_len() on a compiled regex: the number of
capture groups, which by the engine's definition is the length of its
capture_names() sequence (group 0, the whole match, included). -/
def bytesCapturesLen (re : EngineRegex) : Nat :=
  re.capture_names.length

/-- rure_captures_new (rure.rs lines 404-410): 2 * captures_len unset
slots. -/
def rure_captures_new (re : Regex) : Captures :=
  ⟨List.replicate (2 * bytesCapturesLen re.re) none⟩

/-- rure_captures_len (rure.rs lines 440-444): slot count / 2. -/
def rure_captures_len (captures : Captures) : Nat :=
  captures.slots.length / 2

/-- rure_captures_at (rure.rs lines 418-438).  The source indexes slots
i*2 and i*2+1 with no bounds check, so an out-of-range index panics;
the panic is modelled as the outer `none`.  Otherwise `some (some
(s, e))` models returning true with the match written to the caller's
rure_match, and `some none` models returning false. -/
def rure_captures_at (captures : Captures) (i : Nat) :
    Option (Option (Nat × Nat)) :=
  match captures.slots[i * 2]?, captures.slots[i * 2 + 1]? with
  | some (some s), some (some e) => some (some (s, e))
  | some _, some _ => some none
  | _, _ => none

/-- Claim C9: the number of groups reported by rure_captures_len on a
fresh buffer equals the length of the pattern's capture-name
enumeration (group 0 included), the buffer holding exactly twice that
many slots, all initially unset. -/
theorem rure_captures_new_len :
    ∀ re : Regex,
    rure_captures_len (rure_captures_new re) =
      re.re.capture_names.length ∧
    (rure_captures_new re).slots =
      List.replicate (2 * re.re.capture_names.length) none := by
  intro re
  constructor
  · simp [rure_captures_len, rure_captures_new, bytesCapturesLen]
  · rfl

/-- Claim C10: rure_captures_at is partial in the group index: for
every i at or beyond rure_captures_len the slot indexing is out of
bounds (the panic branch is taken), while under the precondition
i < rure_captures_len the call is defined, returning the (start, end)
pair when both slots are set and a no-match answer when either slot is
unset. -/
theorem rure_captures_at_bounds :
    ∀ (captures : Captures) (i : Nat),
    (rure_captures_len captures ≤ i →
      rure_captures_at captures i = none) ∧
    (i < rure_captures_len captures →
      (rure_captures_at captures i).isSome = true) ∧
    (∀ s e, captures.slots[i * 2]? = some (some s) →
      captures.slots[i * 2 + 1]? = some (some e) →
      rure_captures_at captures i = some (some (s, e))) ∧
    (i < rure_captures_len captures →
      (captures.slots[i * 2]? = some none ∨
        captures.slots[i * 2 + 1]? = some none) →
      rure_captures_at captures i = some none) := by
  intro captures i
  refine ⟨?_, ?_, ?_, ?_⟩
  · intro h
    have hlen : captures.slots.length ≤ i * 2 + 1 := by
      simp [rure_captures_len] at h
      omega
    have h2 : captures.slots[i * 2 + 1]? = none :=
      List.getElem?_eq_none hlen
    rcases h1 : captures.slots[i * 2]? with _ | v <;>
      simp [rure_captures_at, h1, h2]
  · intro h
    have hlen : i * 2 + 1 < captures.slots.length := by
      simp [rure_captures_len] at h
      omega
    have hlen0 : i * 2 < captures.slots.length := by omega
    have h1 := List.getElem?_eq_getElem hlen0
    have h2 := List.getElem?_eq_getElem hlen
    rcases hv1 : captures.slots[i * 2] with _ | s <;>
      rcases hv2 : captures.slots[i * 2 + 1] with _ | e <;>
        simp [rure_captures_at, h1, h2, hv1, hv2]
  · intro s e h1 h2
    simp [rure_captures_at, h1, h2]
  · intro hlt h
    have hlen : i * 2 + 1 < captures.slots.length := by
      simp [rure_captures_len] at hlt
      omega
    have hlen0 : i * 2 < captures.slots.length := by omega
    have h1 := List.getElem?_eq_getElem hlen0
    have h2 := List.getElem?_eq_getElem hlen
    rcases hv1 : captures.slots[i * 2] with _ | s <;>
      rcases hv2 : captures.slots[i * 2 + 1] with _ | e <;>
        simp [rure_captures_at, h1, h2, hv1, hv2] <;>
          simp [h1, h2, hv1, hv2] at h

theorem rure_captures_at_bounds_witness :
    rure_captures_at ⟨[some 0, some 2, none, some 1]⟩ 2 = none ∧
    (rure_captures_at ⟨[some 0, some 2, none, some 1]⟩ 0).isSome =
      true ∧
    rure_captures_at ⟨[some 0, some 2, none, some 1]⟩ 0 =
      some (some (0, 2)) ∧
    rure_captures_at ⟨[some 0, some 2, none, some 1]⟩ 1 = some none := by
  refine ⟨?_, ?_, ?_, ?_⟩
  · exact (rure_captures_at_bounds ⟨[some 0, some 2, none, some 1]⟩
      2).1 (by decide)
  · exact (rure_captures_at_bounds ⟨[some 0, some 2, none, some 1]⟩
      0).2.1 (by decide)
  · exact (rure_captures_at_bounds ⟨[some 0, some 2, none, some 1]⟩
      0).2.2.1 0 2 (by decide) (by decide)
  · exact (rure_captures_at_bounds ⟨[some 0, some 2, none, some 1]⟩
      1).2.2.2 (by decide) (Or.inl (by decide))

/-- rure_set_matches (rure.rs lines 567-588).  `manyMatchesAt` stands
for the engine call searcher().many_matches_at on the fixed haystack
and start offset, taking the caller's boolean vector and returning the
updated vector together with the overall boolean result; the layer
first sets every entry of the caller's vector (one entry per pattern)
to false, because the engine primitive is not guaranteed to write
non-matching entries. -/
def rure_set_matches
    (manyMatchesAt : List Bool → List Bool × Bool)
    (matchesVec : List Bool) : List Bool × Bool :=
  manyMatchesAt (matchesVec.map fun _ => false)

/-- rure_is_match (rure.rs lines 162-173) and rure_set_is_match (lines
554-565): both delegate directly to the engine's is_match_at on the
haystack, here abstracted as a predicate on the start offset. -/
def rure_is_match (engineIsMatchAt : Nat → Bool) (start : Nat) : Bool :=
  engineIsMatchAt start

/-- Literal-byte-string match at one position: `pat` occurs in `hay`
starting exactly at offset `i`.  Used to model the engine on the
literal patterns of the set-matching example. -/
def matchesHere : List Nat → List Nat → Bool
  | [], _ => true
  | _ :: _, [] => false
  | a :: as, b :: bs => a == b && matchesHere as bs

/-- Engine model for a literal pattern: some occurrence of `pat` in
`hay` begins at or after `start`. -/
def substrFrom (pat hay : List Nat) (start : Nat) : Bool :=
  (List.range (hay.length + 1)).any
    (fun i => decide (start ≤ i) && matchesHere pat (hay.drop i))

/-- Bytes of the pattern "abc". -/
def abcBytes : List Nat := [97, 98, 99]

/-- Bytes of the pattern "b". -/
def bBytes : List Nat := [98]

/-- Bytes of the haystack "xbcabcx". -/
def xbcabcxBytes : List Nat := [120, 98, 99, 97, 98, 99, 120]

/-- Whether pattern i of the example set compiled from "abc" and "b"
matches the haystack "xbcabcx" at or after offset 0. -/
def pmatchEx (i : Nat) : Bool :=
  if i = 0 then substrFrom abcBytes xbcabcxBytes 0
  else if i = 1 then substrFrom bBytes xbcabcxBytes 0
  else false

/-- A concrete engine many_matches_at for the example set: it writes
true into the entries of matching patterns and leaves the entries of
non-matching patterns untouched, as the engine primitive is permitted
to do. -/
def manyMatchesEx (v : List Bool) : List Bool × Bool :=
  ((List.range v.length).map (fun i => v.getD i false || pmatchEx i),
    (List.range v.length).any pmatchEx)


/-- Claim C7: rure_set_matches clears every entry of the caller's
vector before delegating, so as long as the engine primitive sets the
entries of matching patterns to true and at most leaves other entries
untouched (writing true into an entry of a non-matching pattern only if
it was already true on input), the resulting entry i is true exactly
when pattern i matches, whatever the caller's vector previously held;
on the set compiled from "abc" and "b" against "xbcabcx" at start 0
both entries come out true, agreeing with independent is_match calls
for the two patterns alone. -/
theorem rure_set_matches_clears_first :
    (∀ (manyMatchesAt : List Bool → List Bool × Bool)
       (pmatch : Nat → Bool) (v : List Bool),
      (manyMatchesAt (v.map fun _ => false)).1.length = v.length →
      (∀ i, i < v.length →
        (pmatch i = true →
          (manyMatchesAt (v.map fun _ => false)).1[i]? = some true) ∧
        (pmatch i = false →
          (manyMatchesAt (v.map fun _ => false)).1[i]? = some true →
          (v.map fun _ => false)[i]? = some true)) →
      ∀ i, i < v.length →
        (rure_set_matches manyMatchesAt v).1[i]? = some (pmatch i)) ∧
    ((rure_set_matches manyMatchesEx [true, false]).1 = [true, true] ∧
     rure_is_match (substrFrom abcBytes xbcabcxBytes) 0 = true ∧
     rure_is_match (substrFrom bBytes xbcabcxBytes) 0 = true) := by
  constructor
  · intro many pmatch v hlen hcon i hi
    have hres : i < (many (v.map fun _ => false)).1.length := by
      rw [hlen]
      exact hi
    have hsome := List.getElem?_eq_getElem hres
    rcases hb : pmatch i with _ | _
    · rcases hv : (many (v.map fun _ => false)).1[i] with _ | _
      · rw [rure_set_matches, hsome, hv]
      · exfalso
        have hwi := (hcon i hi).2 hb (by rw [hsome, hv])
        have hmi : i < (v.map fun _ => false).length := by
          simpa using hi
        have hwf : (v.map fun _ => false)[i]? = some false := by
          rw [List.getElem?_eq_getElem hmi]
          simp
        rw [hwf] at hwi
        simp at hwi
    · rw [rure_set_matches]
      exact (hcon i hi).1 hb
  · refine ⟨by decide, by decide, by decide⟩

theorem rure_set_matches_clears_first_witness :
    (rure_set_matches manyMatchesEx [true, false]).1[0]? =
      some (pmatchEx 0) ∧
    (rure_set_matches manyMatchesEx [true, false]).1[1]? =
      some (pmatchEx 1) := by
  constructor
  · exact rure_set_matches_clears_first.1 manyMatchesEx pmatchEx
      [true, false] (by decide) (by decide) 0 (by decide)
  · exact rure_set_matches_clears_first.1 manyMatchesEx pmatchEx
      [true, false] (by decide) (by decide) 1 (by decide)

/-- The match iterator state of rure.rs lines 51-55: resumption offset
last_end and the end of the previously emitted match (last_match).  The
non-owning regex pointer is modelled by passing the engine search
function explicitly. -/
structure Iter where
  last_end : Nat
  last_match : Option Nat
deriving DecidableEq, Repr

/-- Result of one rure_iter_next call: the boolean return, the match
bounds written to the caller's rure_match (none when nothing is
written), the iterator state after the call, the number of engine
find_at calls made, and the number of self-calls taken on suppressed
empty matches. -/
structure NextResult where
  ret : Bool
  matchInfo : Option (Nat × Nat)
  it : Iter
  engineCalls : Nat
  selfCalls : Nat
deriving DecidableEq, Repr

/-- rure_iter_next (rure.rs lines 327-366) against a fixed haystack of
length L, with `find` standing for the engine's find_at on that
haystack.  Mirrors the source line by line: the length guard (line
337), the engine call (line 340), the empty-match advance `last_end +=
1` (line 348), the suppression self-call when the empty match ends at
last_match (lines 351-353), the non-empty update `last_end = e` (line
355), and the emission (lines 357-364).  The self-call in the source is
recursion on the iterator it just advanced; here it recurses on a fuel
argument, and fuel adequacy (any fuel of at least L + 2 gives the same
result, proved below) captures its termination. -/
def iterNextGo (find : Nat → Option (Nat × Nat)) (L : Nat) :
    Nat → Iter → NextResult
  | 0, it => ⟨false, none, it, 0, 0⟩
  | fuel + 1, it =>
    if L < it.last_end then ⟨false, none, it, 0, 0⟩
    else
      match find it.last_end with
      | none => ⟨false, none, it, 1, 0⟩
      | some (s, e) =>
        if s = e then
          if some e = it.last_match then
            let r := iterNextGo find L fuel ⟨it.last_end + 1, it.last_match⟩
            ⟨r.ret, r.matchInfo, r.it, r.engineCalls + 1, r.selfCalls + 1⟩
          else
            ⟨true, some (s, e), ⟨it.last_end + 1, some e⟩, 1, 0⟩
        else
          ⟨true, some (s, e), ⟨e, some e⟩, 1, 0⟩

/-- rure_iter_next with the always-adequate fuel L + 2: last_end grows
by exactly one per self-call and the guard stops once it exceeds L, so
a top-level call never consumes more. -/
def rure_iter_next (find : Nat → Option (Nat × Nat)) (L : Nat)
    (it : Iter) : NextResult :=
  iterNextGo find L (L + 2) it

/-- Result of one rure_iter_next_captures call: the boolean return, the
caller's capture buffer contents after the call, the iterator state,
and the self-call count. -/
structure CapNextResult where
  ret : Bool
  slots : List (Option Nat)
  it : Iter
  selfCalls : Nat
deriving DecidableEq, Repr

/-- rure_iter_next_captures (rure.rs lines 368-402): identical control
flow to rure_iter_next, but the bounds come from the slot-populating
engine call read_captures_at (modelled by `readC`, which takes the
start offset and the current slots and returns the new slots plus the
optional bounds), and no rure_match is written. -/
def iterNextCapGo
    (readC : Nat → List (Option Nat) → List (Option Nat) × Option (Nat × Nat))
    (L : Nat) : Nat → List (Option Nat) → Iter → CapNextResult
  | 0, slots, it => ⟨false, slots, it, 0⟩
  | fuel + 1, slots, it =>
    if L < it.last_end then ⟨false, slots, it, 0⟩
    else
      match readC it.last_end slots with
      | (slots2, none) => ⟨false, slots2, it, 0⟩
      | (slots2, some (s, e)) =>
        if s = e then
          if some e = it.last_match then
            let r := iterNextCapGo readC L fuel slots2
              ⟨it.last_end + 1, it.last_match⟩
            ⟨r.ret, r.slots, r.it, r.selfCalls + 1⟩
          else
            ⟨true, slots2, ⟨it.last_end + 1, some e⟩, 0⟩
        else
          ⟨true, slots2, ⟨e, some e⟩, 0⟩

/-- rure_iter_next_captures with the always-adequate fuel L + 2. -/
def rure_iter_next_captures
    (readC : Nat → List (Option Nat) → List (Option Nat) × Option (Nat × Nat))
    (L : Nat) (slots : List (Option Nat)) (it : Iter) : CapNextResult :=
  iterNextCapGo readC L (L + 2) slots it

/-- n successive rure_iter_next calls on one iterator, starting from
the state built by rure_iter_new (rure.rs lines 310-318: last_end 0, no
last match), collecting every emitted match in order. -/
def iterRun (find : Nat → Option (Nat × Nat)) (L : Nat) :
    Nat → Iter × List (Nat × Nat)
  | 0 => (⟨0, none⟩, [])
  | n + 1 =>
    let p := iterRun find L n
    let r := rure_iter_next find L p.1
    (r.it, p.2 ++ r.matchInfo.toList)

/-- Engine model of find_at for the pattern a* on the haystack "aa"
(length 2): from any start i within the haystack the leftmost match is
the run of a's from i to the end, (i, 2); past the end there is no
match. -/
def findAStarAA : Nat → Option (Nat × Nat) :=
  fun i => if i ≤ 2 then some (i, 2) else none

/-- Engine model of find_at for the pattern $ on the haystack "a"
(length 1): from any start within the haystack the only match is the
empty one at the end, (1, 1). -/
def findDollarOnA : Nat → Option (Nat × Nat) :=
  fun i => if i ≤ 1 then some (1, 1) else none

/-- Claim C2, divergence of the code from the claimed transition rule:
for the pattern $ on haystack "a" the first advance sees the empty
match (1, 1), emits it and returns true, but rure.rs line 348 runs
last_end += 1, leaving last_end = 1, where the claim requires last_end
= e + 1 = 2 (the code's own comment asks for the smallest possible
starting position of the next match following this one).  The a* on
"aa" part of the claim does hold: the iterator emits (0, 2) on the
first advance and nothing afterwards. -/
theorem rure_iter_next_last_end_divergence :
    ((rure_iter_next findDollarOnA 1 ⟨0, none⟩).ret = true ∧
     (rure_iter_next findDollarOnA 1 ⟨0, none⟩).matchInfo =
       some (1, 1) ∧
     (rure_iter_next findDollarOnA 1 ⟨0, none⟩).it.last_end = 1 ∧
     ¬(rure_iter_next findDollarOnA 1 ⟨0, none⟩).it.last_end = 1 + 1) ∧
    ((iterRun findAStarAA 2 1).2 = [(0, 2)] ∧
     (iterRun findAStarAA 2 3).2 = [(0, 2)]) := by
  decide

/-- One capture-aware advance performs the same state transition and
returns the same boolean as the bounds-only advance whenever the
capture-populating engine call reports the same bounds as the
bounds-only one, whatever the slots; proved for every fuel. -/
theorem iterNextCapGo_agrees
    (readC : Nat → List (Option Nat) → List (Option Nat) × Option (Nat × Nat))
    (find : Nat → Option (Nat × Nat)) (L : Nat)
    (hAgree : ∀ start slots, (readC start slots).2 = find start) :
    ∀ (fuel : Nat) (slots : List (Option Nat)) (it : Iter),
      (iterNextCapGo readC L fuel slots it).ret =
        (iterNextGo find L fuel it).ret ∧
      (iterNextCapGo readC L fuel slots it).it =
        (iterNextGo find L fuel it).it ∧
      (iterNextCapGo readC L fuel slots it).selfCalls =
        (iterNextGo find L fuel it).selfCalls := by
  intro fuel
  induction fuel with
  | zero => intro slots it; simp [iterNextCapGo, iterNextGo]
  | succ f ih =>
    intro slots it
    by_cases hg : L < it.last_end
    · simp [iterNextCapGo, iterNextGo, hg]
    · rcases hrc : readC it.last_end slots with ⟨slots2, bnd⟩
      have hf : find it.last_end = bnd := by
        rw [← hAgree it.last_end slots, hrc]
      rcases bnd with _ | se
      · simp [iterNextCapGo, iterNextGo, hg, hrc, hf]
      · rcases se with ⟨s, e⟩
        by_cases hse : s = e
        · by_cases hlm : some e = it.last_match
          · have h := ih slots2 ⟨it.last_end + 1, it.last_match⟩
            simp [iterNextCapGo, iterNextGo, hg, hrc, hf, hse, hlm]
            exact ⟨h.1, h.2.1, h.2.2⟩
          · simp [iterNextCapGo, iterNextGo, hg, hrc, hf, hse, hlm]
        · simp [iterNextCapGo, iterNextGo, hg, hrc, hf, hse]

/-- Claim C6: started from the same iterator state on the same
haystack, rure_iter_next_captures makes exactly the transitions of
rure_iter_next — same resulting last_end and last_match, same
suppression behaviour, same boolean — provided the capture-populating
engine call reports the same bounds as the bounds-only call; the
variants differ only in the slots output and in not writing a
rure_match. -/
theorem rure_iter_next_captures_same_transitions :
    ∀ (readC : Nat → List (Option Nat) → List (Option Nat) × Option (Nat × Nat))
      (find : Nat → Option (Nat × Nat)) (L : Nat)
      (slots : List (Option Nat)) (it : Iter),
    (∀ start sl, (readC start sl).2 = find start) →
    (rure_iter_next_captures readC L slots it).ret =
      (rure_iter_next find L it).ret ∧
    (rure_iter_next_captures readC L slots it).it =
      (rure_iter_next find L it).it := by
  intro readC find L slots it hAgree
  have h := iterNextCapGo_agrees readC find L hAgree (L + 2) slots it
  exact ⟨h.1, h.2.1⟩

/-- A concrete slot-populating engine call agreeing with findAStarAA on
bounds: it records the bounds of the reported match in the two slots of
a one-group buffer. -/
def readCAStarAA :
    Nat → List (Option Nat) → List (Option Nat) × Option (Nat × Nat) :=
  fun i slots =>
    match findAStarAA i with
    | none => (slots, none)
    | some (s, e) => ([some s, some e], some (s, e))

theorem rure_iter_next_captures_same_transitions_witness :
    (rure_iter_next_captures readCAStarAA 2 [none, none]
      ⟨0, none⟩).ret = (rure_iter_next findAStarAA 2 ⟨0, none⟩).ret ∧
    (rure_iter_next_captures readCAStarAA 2 [none, none]
      ⟨0, none⟩).it = (rure_iter_next findAStarAA 2 ⟨0, none⟩).it := by
  exact rure_iter_next_captures_same_transitions readCAStarAA
    findAStarAA 2 [none, none] ⟨0, none⟩
    (fun start sl => by
      rcases h : findAStarAA start with _ | se
      · simp [readCAStarAA, h]
      · rcases se with ⟨s, e⟩
        simp [readCAStarAA, h])

theorem iterNextGo_succ_def (find : Nat → Option (Nat × Nat))
    (L fuel : Nat) (it : Iter) :
    iterNextGo find L (fuel + 1) it =
      (if L < it.last_end then ⟨false, none, it, 0, 0⟩
       else
         match find it.last_end with
         | none => ⟨false, none, it, 1, 0⟩
         | some (s, e) =>
           if s = e then
             if some e = it.last_match then
               let r := iterNextGo find L fuel
                 ⟨it.last_end + 1, it.last_match⟩
               ⟨r.ret, r.matchInfo, r.it, r.engineCalls + 1,
                 r.selfCalls + 1⟩
             else ⟨true, some (s, e), ⟨it.last_end + 1, some e⟩, 1, 0⟩
           else ⟨true, some (s, e), ⟨e, some e⟩, 1, 0⟩) := rfl

theorem iterNextGo_selfCalls_zero (find : Nat → Option (Nat × Nat))
    (L : Nat) : ∀ (fuel : Nat) (it : Iter), L < it.last_end →
    (iterNextGo find L fuel it).selfCalls = 0 := by
  intro fuel it h
  cases fuel with
  | zero => rfl
  | succ f => simp [iterNextGo, h]

theorem iterNextGo_selfCalls_bound (find : Nat → Option (Nat × Nat))
    (L : Nat) : ∀ (fuel : Nat) (it : Iter), it.last_end ≤ L →
    (iterNextGo find L fuel it).selfCalls + it.last_end ≤ L + 1 := by
  intro fuel
  induction fuel with
  | zero =>
    intro it hle
    simp [iterNextGo]
    omega
  | succ f ih =>
    intro it hle
    have hg : ¬L < it.last_end := by omega
    rcases hfind : find it.last_end with _ | ⟨s, e⟩
    · simp [iterNextGo, hg, hfind]
      omega
    · by_cases hse : s = e
      · by_cases hlm : some e = it.last_match
        · simp [iterNextGo, hg, hfind, hse, hlm]
          by_cases hle2 : it.last_end + 1 ≤ L
          · have h2 := ih ⟨it.last_end + 1, it.last_match⟩ hle2
            simp at h2
            omega
          · have h3 : L < (⟨it.last_end + 1, it.last_match⟩ :
                Iter).last_end := by
              simp
              omega
            have hz := iterNextGo_selfCalls_zero find L f
              ⟨it.last_end + 1, it.last_match⟩ h3
            omega
        · simp [iterNextGo, hg, hfind, hse, hlm]
          omega
      · simp [iterNextGo, hg, hfind, hse]
        omega

theorem iterNextGo_lastEnd_progress (find : Nat → Option (Nat × Nat))
    (L : Nat) (hF1 : ∀ i s e, find i = some (s, e) → i ≤ s ∧ s ≤ e) :
    ∀ (fuel : Nat) (it : Iter),
    it.last_end + (iterNextGo find L fuel it).selfCalls ≤
      (iterNextGo find L fuel it).it.last_end := by
  intro fuel
  induction fuel with
  | zero => intro it; simp [iterNextGo]
  | succ f ih =>
    intro it
    by_cases hg : L < it.last_end
    · simp [iterNextGo, hg]
    · rcases hfind : find it.last_end with _ | ⟨s, e⟩
      · simp [iterNextGo, hg, hfind]
      · by_cases hse : s = e
        · by_cases hlm : some e = it.last_match
          · have h2 := ih ⟨it.last_end + 1, it.last_match⟩
            simp at h2
            simp [iterNextGo, hg, hfind, hse, hlm]
            omega
          · simp [iterNextGo, hg, hfind, hse, hlm]
        · have h3 := hF1 it.last_end s e hfind
          simp [iterNextGo, hg, hfind, hse]
          omega

theorem iterNextGo_succ_eq (find : Nat → Option (Nat × Nat)) (L : Nat) :
    ∀ (fuel : Nat) (it : Iter), L + 2 ≤ it.last_end + fuel →
    iterNextGo find L (fuel + 1) it = iterNextGo find L fuel it := by
  intro fuel
  induction fuel with
  | zero =>
    intro it h
    have hg : L < it.last_end := by omega
    simp [iterNextGo, hg]
  | succ f ih =>
    intro it h
    conv_lhs => rw [iterNextGo_succ_def]
    conv_rhs => rw [iterNextGo_succ_def]
    rw [ih ⟨it.last_end + 1, it.last_match⟩ (by simp; omega)]

theorem iterNextGo_fuel_adequate (find : Nat → Option (Nat × Nat))
    (L : Nat) : ∀ f, L + 2 ≤ f → ∀ it : Iter,
    iterNextGo find L f it = rure_iter_next find L it := by
  intro f hf
  induction f, hf using Nat.le_induction with
  | base => intro it; rfl
  | succ f hf ih =>
    intro it
    rw [iterNextGo_succ_eq find L f it (by omega)]
    exact ih it

theorem iterNextCapGo_succ_def
    (readC : Nat → List (Option Nat) → List (Option Nat) × Option (Nat × Nat))
    (L fuel : Nat) (slots : List (Option Nat)) (it : Iter) :
    iterNextCapGo readC L (fuel + 1) slots it =
      (if L < it.last_end then ⟨false, slots, it, 0⟩
       else
         match readC it.last_end slots with
         | (slots2, none) => ⟨false, slots2, it, 0⟩
         | (slots2, some (s, e)) =>
           if s = e then
             if some e = it.last_match then
               let r := iterNextCapGo readC L fuel slots2
                 ⟨it.last_end + 1, it.last_match⟩
               ⟨r.ret, r.slots, r.it, r.selfCalls + 1⟩
             else ⟨true, slots2, ⟨it.last_end + 1, some e⟩, 0⟩
           else ⟨true, slots2, ⟨e, some e⟩, 0⟩) := rfl

theorem iterNextCapGo_selfCalls_zero
    (readC : Nat → List (Option Nat) → List (Option Nat) × Option (Nat × Nat))
    (L : Nat) : ∀ (fuel : Nat) (slots : List (Option Nat)) (it : Iter),
    L < it.last_end → (iterNextCapGo readC L fuel slots it).selfCalls = 0 := by
  intro fuel slots it h
  cases fuel with
  | zero => rfl
  | succ f => simp [iterNextCapGo, h]

theorem iterNextCapGo_selfCalls_bound
    (readC : Nat → List (Option Nat) → List (Option Nat) × Option (Nat × Nat))
    (L : Nat) : ∀ (fuel : Nat) (slots : List (Option Nat)) (it : Iter),
    it.last_end ≤ L →
    (iterNextCapGo readC L fuel slots it).selfCalls + it.last_end ≤
      L + 1 := by
  intro fuel
  induction fuel with
  | zero =>
    intro slots it hle
    simp [iterNextCapGo]
    omega
  | succ f ih =>
    intro slots it hle
    have hg : ¬L < it.last_end := by omega
    rcases hrc : readC it.last_end slots with ⟨slots2, bnd⟩
    rcases bnd with _ | ⟨s, e⟩
    · simp [iterNextCapGo, hg, hrc]
      omega
    · by_cases hse : s = e
      · by_cases hlm : some e = it.last_match
        · simp [iterNextCapGo, hg, hrc, hse, hlm]
          by_cases hle2 : it.last_end + 1 ≤ L
          · have h2 := ih slots2 ⟨it.last_end + 1, it.last_match⟩ hle2
            simp at h2
            omega
          · have h3 : L < (⟨it.last_end + 1, it.last_match⟩ :
                Iter).last_end := by
              simp
              omega
            have hz := iterNextCapGo_selfCalls_zero readC L f slots2
              ⟨it.last_end + 1, it.last_match⟩ h3
            omega
        · simp [iterNextCapGo, hg, hrc, hse, hlm]
          omega
      · simp [iterNextCapGo, hg, hrc, hse]
        omega

theorem iterNextCapGo_lastEnd_progress
    (readC : Nat → List (Option Nat) → List (Option Nat) × Option (Nat × Nat))
    (L : Nat)
    (hR1 : ∀ i sl s e, (readC i sl).2 = some (s, e) → i ≤ s ∧ s ≤ e) :
    ∀ (fuel : Nat) (slots : List (Option Nat)) (it : Iter),
    it.last_end + (iterNextCapGo readC L fuel slots it).selfCalls ≤
      (iterNextCapGo readC L fuel slots it).it.last_end := by
  intro fuel
  induction fuel with
  | zero => intro slots it; simp [iterNextCapGo]
  | succ f ih =>
    intro slots it
    by_cases hg : L < it.last_end
    · simp [iterNextCapGo, hg]
    · rcases hrc : readC it.last_end slots with ⟨slots2, bnd⟩
      rcases bnd with _ | ⟨s, e⟩
      · simp [iterNextCapGo, hg, hrc]
      · by_cases hse : s = e
        · by_cases hlm : some e = it.last_match
          · have h2 := ih slots2 ⟨it.last_end + 1, it.last_match⟩
            simp at h2
            simp [iterNextCapGo, hg, hrc, hse, hlm]
            omega
          · simp [iterNextCapGo, hg, hrc, hse, hlm]
        · have h3 := hR1 it.last_end slots s e (by rw [hrc])
          simp [iterNextCapGo, hg, hrc, hse]
          omega

theorem iterNextCapGo_succ_eq
    (readC : Nat → List (Option Nat) → List (Option Nat) × Option (Nat × Nat))
    (L : Nat) : ∀ (fuel : Nat) (slots : List (Option Nat)) (it : Iter),
    L + 2 ≤ it.last_end + fuel →
    iterNextCapGo readC L (fuel + 1) slots it =
      iterNextCapGo readC L fuel slots it := by
  intro fuel
  induction fuel with
  | zero =>
    intro slots it h
    have hg : L < it.last_end := by omega
    simp [iterNextCapGo, hg]
  | succ f ih =>
    intro slots it h
    conv_lhs => rw [iterNextCapGo_succ_def]
    conv_rhs => rw [iterNextCapGo_succ_def]
    have hrec : ∀ slots2,
        iterNextCapGo readC L (f + 1) slots2
          ⟨it.last_end + 1, it.last_match⟩ =
        iterNextCapGo readC L f slots2
          ⟨it.last_end + 1, it.last_match⟩ := by
      intro slots2
      exact ih slots2 ⟨it.last_end + 1, it.last_match⟩ (by simp; omega)
    simp only [hrec]

theorem iterNextCapGo_fuel_adequate
    (readC : Nat → List (Option Nat) → List (Option Nat) × Option (Nat × Nat))
    (L : Nat) : ∀ f, L + 2 ≤ f →
    ∀ (slots : List (Option Nat)) (it : Iter),
    iterNextCapGo readC L f slots it =
      rure_iter_next_captures readC L slots it := by
  intro f hf
  induction f, hf using Nat.le_induction with
  | base => intro slots it; rfl
  | succ f hf ih =>
    intro slots it
    rw [iterNextCapGo_succ_eq readC L f slots it (by omega)]
    exact ih slots it

/-- Claim C4: the empty-match suppression self-call inside one advance
terminates: every self-call strictly increases last_end (the final
last_end exceeds the initial one by at least the number of self-calls),
at most L + 1 self-calls happen for a haystack of length L, and the
advance is extensionally a bounded loop — any fuel of at least L + 2
yields the very same result — for both rure_iter_next and
rure_iter_next_captures. -/
theorem iter_next_suppression_bounded :
    ∀ (find : Nat → Option (Nat × Nat))
      (readC : Nat → List (Option Nat) → List (Option Nat) × Option (Nat × Nat))
      (L : Nat) (it : Iter) (slots : List (Option Nat)),
    (∀ i s e, find i = some (s, e) → i ≤ s ∧ s ≤ e) →
    (∀ i sl s e, (readC i sl).2 = some (s, e) → i ≤ s ∧ s ≤ e) →
    ((rure_iter_next find L it).selfCalls ≤ L + 1 ∧
     it.last_end + (rure_iter_next find L it).selfCalls ≤
       (rure_iter_next find L it).it.last_end ∧
     ∀ f, L + 2 ≤ f →
       iterNextGo find L f it = rure_iter_next find L it) ∧
    ((rure_iter_next_captures readC L slots it).selfCalls ≤ L + 1 ∧
     it.last_end + (rure_iter_next_captures readC L slots it).selfCalls ≤
       (rure_iter_next_captures readC L slots it).it.last_end ∧
     ∀ f, L + 2 ≤ f →
       iterNextCapGo readC L f slots it =
         rure_iter_next_captures readC L slots it) := by
  intro find readC L it slots hF1 hR1
  constructor
  · refine ⟨?_, ?_, ?_⟩
    · show (iterNextGo find L (L + 2) it).selfCalls ≤ L + 1
      by_cases hle : it.last_end ≤ L
      · have := iterNextGo_selfCalls_bound find L (L + 2) it hle
        omega
      · have := iterNextGo_selfCalls_zero find L (L + 2) it (by omega)
        omega
    · exact iterNextGo_lastEnd_progress find L hF1 (L + 2) it
    · intro f hf
      exact iterNextGo_fuel_adequate find L f hf it
  · refine ⟨?_, ?_, ?_⟩
    · show (iterNextCapGo readC L (L + 2) slots it).selfCalls ≤ L + 1
      by_cases hle : it.last_end ≤ L
      · have := iterNextCapGo_selfCalls_bound readC L (L + 2) slots it
          hle
        omega
      · have := iterNextCapGo_selfCalls_zero readC L (L + 2) slots it
          (by omega)
        omega
    · exact iterNextCapGo_lastEnd_progress readC L hR1 (L + 2) slots it
    · intro f hf
      exact iterNextCapGo_fuel_adequate readC L f hf slots it

theorem iter_next_suppression_bounded_witness :
    (rure_iter_next findAStarAA 2 ⟨0, none⟩).selfCalls ≤ 2 + 1 ∧
    iterNextGo findAStarAA 2 9 ⟨0, none⟩ =
      rure_iter_next findAStarAA 2 ⟨0, none⟩ ∧
    (rure_iter_next_captures readCAStarAA 2 [none, none]
      ⟨0, none⟩).selfCalls ≤ 2 + 1 := by
  have hF1 : ∀ i s e, findAStarAA i = some (s, e) → i ≤ s ∧ s ≤ e := by
    intro i s e h
    by_cases hi : i ≤ 2
    · simp [findAStarAA, hi] at h
      omega
    · simp [findAStarAA, hi] at h
  have hR1 : ∀ i sl s e, (readCAStarAA i sl).2 = some (s, e) →
      i ≤ s ∧ s ≤ e := by
    intro i sl s e h
    rcases hf : findAStarAA i with _ | ⟨s0, e0⟩
    · simp [readCAStarAA, hf] at h
    · simp [readCAStarAA, hf] at h
      have h2 := hF1 i s0 e0 hf
      omega
  have h := iter_next_suppression_bounded findAStarAA readCAStarAA 2
    ⟨0, none⟩ [none, none] hF1 hR1
  exact ⟨h.1.1, h.1.2.2 9 (by omega), h.2.1⟩


theorem iterNextGo_false_exhausted (find : Nat → Option (Nat × Nat))
    (L : Nat) : ∀ (fuel : Nat) (it : Iter),
    L + 2 ≤ it.last_end + fuel →
    (iterNextGo find L fuel it).ret = false →
    (iterNextGo find L fuel it).matchInfo = none ∧
    (L < (iterNextGo find L fuel it).it.last_end ∨
      ((iterNextGo find L fuel it).it.last_end ≤ L ∧
        find (iterNextGo find L fuel it).it.last_end = none)) := by
  intro fuel
  induction fuel with
  | zero =>
    intro it h hret
    refine ⟨rfl, Or.inl ?_⟩
    show L < it.last_end
    omega
  | succ f ih =>
    intro it h hret
    by_cases hg : L < it.last_end
    · have hcall : iterNextGo find L (f + 1) it =
          ⟨false, none, it, 0, 0⟩ := by
        rw [iterNextGo_succ_def]
        simp [hg]
      rw [hcall]
      exact ⟨rfl, Or.inl hg⟩
    · rcases hfind : find it.last_end with _ | ⟨s, e⟩
      · have hcall : iterNextGo find L (f + 1) it =
            ⟨false, none, it, 1, 0⟩ := by
          rw [iterNextGo_succ_def]
          simp [hg, hfind]
        rw [hcall]
        refine ⟨rfl, Or.inr ⟨?_, hfind⟩⟩
        show it.last_end ≤ L
        omega
      · by_cases hse : s = e
        · by_cases hlm : some e = it.last_match
          · have hcall : iterNextGo find L (f + 1) it =
                ⟨(iterNextGo find L f
                    ⟨it.last_end + 1, it.last_match⟩).ret,
                 (iterNextGo find L f
                    ⟨it.last_end + 1, it.last_match⟩).matchInfo,
                 (iterNextGo find L f
                    ⟨it.last_end + 1, it.last_match⟩).it,
                 (iterNextGo find L f
                    ⟨it.last_end + 1, it.last_match⟩).engineCalls + 1,
                 (iterNextGo find L f
                    ⟨it.last_end + 1, it.last_match⟩).selfCalls + 1⟩ := by
              rw [iterNextGo_succ_def]
              simp [hg, hfind, hse, hlm]
            rw [hcall] at hret ⊢
            exact ih ⟨it.last_end + 1, it.last_match⟩ (by simp; omega)
              hret
          · have hcall : (iterNextGo find L (f + 1) it).ret = true := by
              rw [iterNextGo_succ_def]
              simp [hg, hfind, hse, hlm]
            rw [hcall] at hret
            cases hret
        · have hcall : (iterNextGo find L (f + 1) it).ret = true := by
            rw [iterNextGo_succ_def]
            simp [hg, hfind, hse]
          rw [hcall] at hret
          cases hret

/-- Claim C5 (amended): after any advance call that returns false, the
iterator state is a fixpoint: every further advance returns false,
writes nothing, and leaves the state unchanged; when the state's
last_end exceeds the haystack length these further advances make no
engine call, while otherwise (exhaustion came from the engine reporting
no match at last_end ≤ L) each further advance re-queries the engine
exactly once, deterministically receiving no match again. -/
theorem rure_iter_next_false_stable :
    ∀ (find : Nat → Option (Nat × Nat)) (L : Nat) (it : Iter),
    (rure_iter_next find L it).ret = false →
    (rure_iter_next find L ((rure_iter_next find L it).it)).ret =
      false ∧
    (rure_iter_next find L ((rure_iter_next find L it).it)).it =
      (rure_iter_next find L it).it ∧
    (rure_iter_next find L ((rure_iter_next find L it).it)).matchInfo =
      none ∧
    (L < (rure_iter_next find L it).it.last_end →
      (rure_iter_next find L
        ((rure_iter_next find L it).it)).engineCalls = 0) ∧
    ((rure_iter_next find L it).it.last_end ≤ L →
      (rure_iter_next find L
        ((rure_iter_next find L it).it)).engineCalls = 1) := by
  intro find L it hret
  have hex := iterNextGo_false_exhausted find L (L + 2) it (by omega)
    hret
  have hrw : iterNextGo find L (L + 2) it = rure_iter_next find L it :=
    rfl
  rw [hrw] at hex
  rcases hex.2 with hgt | ⟨hle, hnone⟩
  · have hcall : rure_iter_next find L ((rure_iter_next find L it).it) =
        ⟨false, none, (rure_iter_next find L it).it, 0, 0⟩ := by
      show iterNextGo find L (L + 2) ((rure_iter_next find L it).it) = _
      rw [show L + 2 = (L + 1) + 1 from rfl, iterNextGo_succ_def]
      simp [hgt]
    rw [hcall]
    refine ⟨rfl, rfl, rfl, fun _ => rfl, fun hc => ?_⟩
    omega
  · have hcall : rure_iter_next find L ((rure_iter_next find L it).it) =
        ⟨false, none, (rure_iter_next find L it).it, 1, 0⟩ := by
      show iterNextGo find L (L + 2) ((rure_iter_next find L it).it) = _
      rw [show L + 2 = (L + 1) + 1 from rfl, iterNextGo_succ_def]
      have hg : ¬L < (rure_iter_next find L it).it.last_end := by omega
      simp [hg, hnone]
    rw [hcall]
    refine ⟨rfl, rfl, rfl, fun hc => ?_, fun _ => rfl⟩
    omega

/-- Claim C5, counterexample to the claim as stated: when exhaustion
comes from the engine reporting no match while last_end is still within
the haystack, subsequent advances do make an engine call (one per
advance), contradicting the claimed absence of further engine calls. -/
theorem rure_iter_next_false_engine_calls_cex :
    (rure_iter_next (fun _ => none) 0 ⟨0, none⟩).ret = false ∧
    (rure_iter_next (fun _ => none) 0 ⟨0, none⟩).it = ⟨0, none⟩ ∧
    (rure_iter_next (fun _ => none) 0 ⟨0, none⟩).engineCalls = 1 ∧
    (rure_iter_next (fun _ => none) 0
      ((rure_iter_next (fun _ => none) 0 ⟨0, none⟩).it)).engineCalls ≠
      0 := by
  decide

theorem rure_iter_next_false_stable_witness :
    (rure_iter_next (fun _ => none) 0
      ((rure_iter_next (fun _ => none) 0 ⟨0, none⟩).it)).ret = false ∧
    (rure_iter_next (fun _ => none) 0
      ((rure_iter_next (fun _ => none) 0 ⟨0, none⟩).it)).it =
      (rure_iter_next (fun _ => none) 0 ⟨0, none⟩).it ∧
    (rure_iter_next (fun _ => none) 0
      ((rure_iter_next (fun _ => none) 0 ⟨0, none⟩).it)).engineCalls =
      1 := by
  have h := rure_iter_next_false_stable (fun _ => none) 0 ⟨0, none⟩
    (by decide)
  exact ⟨h.1, h.2.1, h.2.2.2.2 (by decide)⟩

/-- Invariant tying the iterator state to the engine: after the
iterator has recorded last_match = some m, every position between
last_end and m (exclusive) still reports the same empty match (m, m).
It holds for a leftmost engine because last_end only ever trails m
right after an empty match was found at m. -/
def InvP (find : Nat → Option (Nat × Nat)) (it : Iter) : Prop :=
  ∀ m, it.last_match = some m →
    ∀ t, it.last_end ≤ t → t < m → find t = some (m, m)

theorem InvP_bump (find : Nat → Option (Nat × Nat)) (it : Iter)
    (h : InvP find it) :
    InvP find ⟨it.last_end + 1, it.last_match⟩ := by
  intro m hm t ht1 ht2
  simp at hm ht1
  exact h m hm t (by omega) ht2

theorem iterNextGo_last_end_mono (find : Nat → Option (Nat × Nat))
    (L : Nat) (hF1 : ∀ i s e, find i = some (s, e) → i ≤ s ∧ s ≤ e)
    (fuel : Nat) (it : Iter) :
    it.last_end ≤ (iterNextGo find L fuel it).it.last_end := by
  have := iterNextGo_lastEnd_progress find L hF1 fuel it
  omega

theorem iterNextGo_matchInfo_none_lm (find : Nat → Option (Nat × Nat))
    (L : Nat) : ∀ (fuel : Nat) (it : Iter),
    (iterNextGo find L fuel it).matchInfo = none →
    (iterNextGo find L fuel it).it.last_match = it.last_match := by
  intro fuel
  induction fuel with
  | zero => intro it _; rfl
  | succ f ih =>
    intro it hmi
    by_cases hg : L < it.last_end
    · have hcall : iterNextGo find L (f + 1) it =
          ⟨false, none, it, 0, 0⟩ := by
        rw [iterNextGo_succ_def]
        simp [hg]
      rw [hcall]
    · rcases hfind : find it.last_end with _ | ⟨s0, e0⟩
      · have hcall : iterNextGo find L (f + 1) it =
            ⟨false, none, it, 1, 0⟩ := by
          rw [iterNextGo_succ_def]
          simp [hg, hfind]
        rw [hcall]
      · by_cases hse : s0 = e0
        · by_cases hlm : some e0 = it.last_match
          · have hit : (iterNextGo find L (f + 1) it).it =
                (iterNextGo find L f
                  ⟨it.last_end + 1, it.last_match⟩).it := by
              rw [iterNextGo_succ_def]
              simp [hg, hfind, hse, hlm]
            have hmi2 : (iterNextGo find L (f + 1) it).matchInfo =
                (iterNextGo find L f
                  ⟨it.last_end + 1, it.last_match⟩).matchInfo := by
              rw [iterNextGo_succ_def]
              simp [hg, hfind, hse, hlm]
            rw [hmi2] at hmi
            rw [hit]
            exact ih ⟨it.last_end + 1, it.last_match⟩ hmi
          · have hcall : (iterNextGo find L (f + 1) it).matchInfo =
                some (s0, e0) := by
              rw [iterNextGo_succ_def]
              simp [hg, hfind, hse, hlm]
            rw [hcall] at hmi
            cases hmi
        · have hcall : (iterNextGo find L (f + 1) it).matchInfo =
              some (s0, e0) := by
            rw [iterNextGo_succ_def]
            simp [hg, hfind, hse]
          rw [hcall] at hmi
          cases hmi

theorem iterNextGo_matchInfo_some_lm (find : Nat → Option (Nat × Nat))
    (L : Nat) : ∀ (fuel : Nat) (it : Iter) (s e : Nat),
    (iterNextGo find L fuel it).matchInfo = some (s, e) →
    (iterNextGo find L fuel it).it.last_match = some e := by
  intro fuel
  induction fuel with
  | zero =>
    intro it s e h
    cases h
  | succ f ih =>
    intro it s e hmi
    by_cases hg : L < it.last_end
    · have hcall : iterNextGo find L (f + 1) it =
          ⟨false, none, it, 0, 0⟩ := by
        rw [iterNextGo_succ_def]
        simp [hg]
      rw [hcall] at hmi
      cases hmi
    · rcases hfind : find it.last_end with _ | ⟨s0, e0⟩
      · have hcall : iterNextGo find L (f + 1) it =
            ⟨false, none, it, 1, 0⟩ := by
          rw [iterNextGo_succ_def]
          simp [hg, hfind]
        rw [hcall] at hmi
        cases hmi
      · by_cases hse : s0 = e0
        · by_cases hlm : some e0 = it.last_match
          · have hit : (iterNextGo find L (f + 1) it).it =
                (iterNextGo find L f
                  ⟨it.last_end + 1, it.last_match⟩).it := by
              rw [iterNextGo_succ_def]
              simp [hg, hfind, hse, hlm]
            have hmi2 : (iterNextGo find L (f + 1) it).matchInfo =
                (iterNextGo find L f
                  ⟨it.last_end + 1, it.last_match⟩).matchInfo := by
              rw [iterNextGo_succ_def]
              simp [hg, hfind, hse, hlm]
            rw [hmi2] at hmi
            rw [hit]
            exact ih ⟨it.last_end + 1, it.last_match⟩ s e hmi
          · have hcall : iterNextGo find L (f + 1) it =
                ⟨true, some (s0, e0),
                  ⟨it.last_end + 1, some e0⟩, 1, 0⟩ := by
              rw [iterNextGo_succ_def]
              simp [hg, hfind, hse, hlm]
            rw [hcall] at hmi ⊢
            simp at hmi ⊢
            omega
        · have hcall : iterNextGo find L (f + 1) it =
              ⟨true, some (s0, e0), ⟨e0, some e0⟩, 1, 0⟩ := by
            rw [iterNextGo_succ_def]
            simp [hg, hfind, hse]
          rw [hcall] at hmi ⊢
          simp at hmi ⊢
          omega

theorem iterNextGo_invP (find : Nat → Option (Nat × Nat)) (L : Nat)
    (hF2 : ∀ a s e b, find a = some (s, e) → a ≤ b → b ≤ s →
      find b = some (s, e)) :
    ∀ (fuel : Nat) (it : Iter), InvP find it →
    InvP find (iterNextGo find L fuel it).it := by
  intro fuel
  induction fuel with
  | zero => intro it h; exact h
  | succ f ih =>
    intro it h
    by_cases hg : L < it.last_end
    · have hcall : (iterNextGo find L (f + 1) it).it = it := by
        rw [iterNextGo_succ_def]
        simp [hg]
      rw [hcall]
      exact h
    · rcases hfind : find it.last_end with _ | ⟨s0, e0⟩
      · have hcall : (iterNextGo find L (f + 1) it).it = it := by
          rw [iterNextGo_succ_def]
          simp [hg, hfind]
        rw [hcall]
        exact h
      · by_cases hse : s0 = e0
        · by_cases hlm : some e0 = it.last_match
          · have hcall : (iterNextGo find L (f + 1) it).it =
                (iterNextGo find L f
                  ⟨it.last_end + 1, it.last_match⟩).it := by
              rw [iterNextGo_succ_def]
              simp [hg, hfind, hse, hlm]
            rw [hcall]
            exact ih ⟨it.last_end + 1, it.last_match⟩
              (InvP_bump find it h)
          · have hcall : (iterNextGo find L (f + 1) it).it =
                ⟨it.last_end + 1, some e0⟩ := by
              rw [iterNextGo_succ_def]
              simp [hg, hfind, hse, hlm]
            rw [hcall]
            intro m hm t ht1 ht2
            simp at hm ht1
            subst hm
            have h2 := hF2 it.last_end s0 e0 t hfind (by omega)
              (by omega)
            rw [hse] at h2
            exact h2
        · have hcall : (iterNextGo find L (f + 1) it).it =
              ⟨e0, some e0⟩ := by
            rw [iterNextGo_succ_def]
            simp [hg, hfind, hse]
          rw [hcall]
          intro m hm t ht1 ht2
          simp at hm ht1
          exfalso
          omega

theorem iterNextGo_emit_gt (find : Nat → Option (Nat × Nat)) (L : Nat)
    (hF1 : ∀ i s e, find i = some (s, e) → i ≤ s ∧ s ≤ e) :
    ∀ (fuel : Nat) (it : Iter) (m s e : Nat), InvP find it →
    it.last_match = some m →
    (iterNextGo find L fuel it).matchInfo = some (s, e) → m < e := by
  intro fuel
  induction fuel with
  | zero =>
    intro it m s e _ _ h
    cases h
  | succ f ih =>
    intro it m s e hinv hm hmi
    by_cases hg : L < it.last_end
    · have hcall : iterNextGo find L (f + 1) it =
          ⟨false, none, it, 0, 0⟩ := by
        rw [iterNextGo_succ_def]
        simp [hg]
      rw [hcall] at hmi
      cases hmi
    · rcases hfind : find it.last_end with _ | ⟨s0, e0⟩
      · have hcall : iterNextGo find L (f + 1) it =
            ⟨false, none, it, 1, 0⟩ := by
          rw [iterNextGo_succ_def]
          simp [hg, hfind]
        rw [hcall] at hmi
        cases hmi
      · by_cases hse : s0 = e0
        · by_cases hlm : some e0 = it.last_match
          · have hmi2 : (iterNextGo find L (f + 1) it).matchInfo =
                (iterNextGo find L f
                  ⟨it.last_end + 1, it.last_match⟩).matchInfo := by
              rw [iterNextGo_succ_def]
              simp [hg, hfind, hse, hlm]
            rw [hmi2] at hmi
            exact ih ⟨it.last_end + 1, it.last_match⟩ m s e
              (InvP_bump find it hinv) hm hmi
          · have hcall : (iterNextGo find L (f + 1) it).matchInfo =
                some (s0, e0) := by
              rw [iterNextGo_succ_def]
              simp [hg, hfind, hse, hlm]
            rw [hcall] at hmi
            simp at hmi
            by_cases hltm : it.last_end < m
            · have h2 := hinv m hm it.last_end (le_refl _) hltm
              rw [hfind] at h2
              simp at h2
              exfalso
              apply hlm
              rw [hm, h2.2]
            · have h3 := hF1 it.last_end s0 e0 hfind
              have hne : e0 ≠ m := by
                intro hh
                apply hlm
                rw [hm, hh]
              omega
        · have hcall : (iterNextGo find L (f + 1) it).matchInfo =
              some (s0, e0) := by
            rw [iterNextGo_succ_def]
            simp [hg, hfind, hse]
          rw [hcall] at hmi
          simp at hmi
          by_cases hltm : it.last_end < m
          · have h2 := hinv m hm it.last_end (le_refl _) hltm
            rw [hfind] at h2
            simp at h2
            exfalso
            apply hse
            rw [h2.1, h2.2]
          · have h3 := hF1 it.last_end s0 e0 hfind
            omega

/-- Invariant of a whole iterator run: the state invariant holds, the
emitted matches have strictly increasing ends, and every emitted end is
at most the recorded last_match. -/
def TraceOK (find : Nat → Option (Nat × Nat)) (it : Iter)
    (ems : List (Nat × Nat)) : Prop :=
  InvP find it ∧
  List.Pairwise (fun p q : Nat × Nat => p.2 < q.2) ems ∧
  (it.last_match = none → ems = []) ∧
  (∀ m, it.last_match = some m → ∀ p ∈ ems, p.2 ≤ m)

theorem traceOK_step (find : Nat → Option (Nat × Nat)) (L : Nat)
    (hF1 : ∀ i s e, find i = some (s, e) → i ≤ s ∧ s ≤ e)
    (hF2 : ∀ a s e b, find a = some (s, e) → a ≤ b → b ≤ s →
      find b = some (s, e))
    (it : Iter) (ems : List (Nat × Nat)) (h : TraceOK find it ems) :
    TraceOK find (rure_iter_next find L it).it
      (ems ++ (rure_iter_next find L it).matchInfo.toList) := by
  obtain ⟨hinv, hpw, hnil, hbound⟩ := h
  rcases hmi : (rure_iter_next find L it).matchInfo with _ | ⟨s, e⟩
  · have hlm : (rure_iter_next find L it).it.last_match =
        it.last_match :=
      iterNextGo_matchInfo_none_lm find L (L + 2) it hmi
    refine ⟨iterNextGo_invP find L hF2 (L + 2) it hinv, ?_, ?_, ?_⟩
    · simpa using hpw
    · intro h0
      rw [hlm] at h0
      simpa using hnil h0
    · intro m hm p hp
      rw [hlm] at hm
      simp only [Option.toList, List.append_nil] at hp
      exact hbound m hm p hp
  · have hlm : (rure_iter_next find L it).it.last_match = some e :=
      iterNextGo_matchInfo_some_lm find L (L + 2) it s e hmi
    refine ⟨iterNextGo_invP find L hF2 (L + 2) it hinv, ?_, ?_, ?_⟩
    · rw [show (some (s, e)).toList = [(s, e)] from rfl,
        List.pairwise_append]
      refine ⟨hpw, by simp, ?_⟩
      intro p hp q hq
      simp at hq
      subst hq
      show p.2 < e
      rcases hlmc : it.last_match with _ | m0
      · rw [hnil hlmc] at hp
        cases hp
      · have h1 := hbound m0 hlmc p hp
        have h2 := iterNextGo_emit_gt find L hF1 (L + 2) it m0 s e hinv
          hlmc hmi
        omega
    · intro h0
      rw [hlm] at h0
      cases h0
    · intro m hm p hp
      rw [hlm] at hm
      have hme : e = m := by
        simpa using hm
      rw [show (some (s, e)).toList = [(s, e)] from rfl] at hp
      rcases List.mem_append.mp hp with hp2 | hp2
      · rcases hlmc : it.last_match with _ | m0
        · rw [hnil hlmc] at hp2
          cases hp2
        · have h1 := hbound m0 hlmc p hp2
          have h2 := iterNextGo_emit_gt find L hF1 (L + 2) it m0 s e
            hinv hlmc hmi
          omega
      · simp at hp2
        subst hp2
        show e ≤ m
        omega

theorem iterRun_traceOK (find : Nat → Option (Nat × Nat)) (L : Nat)
    (hF1 : ∀ i s e, find i = some (s, e) → i ≤ s ∧ s ≤ e)
    (hF2 : ∀ a s e b, find a = some (s, e) → a ≤ b → b ≤ s →
      find b = some (s, e)) :
    ∀ n, TraceOK find (iterRun find L n).1 (iterRun find L n).2 := by
  intro n
  induction n with
  | zero =>
    refine ⟨?_, ?_, ?_, ?_⟩
    · intro m hm
      cases hm
    · exact List.Pairwise.nil
    · intro _
      rfl
    · intro m hm
      cases hm
  | succ n ih =>
    exact traceOK_step find L hF1 hF2 (iterRun find L n).1
      (iterRun find L n).2 ih

/-- Claim C3: for any engine whose reported matches start at or after
the requested offset (with start at most end) and which is leftmost
stable (querying anywhere between the request point and the reported
start returns the same match), every sequence of rure_iter_next calls
from a fresh iterator has non-decreasing last_end, and no emitted
(start, end) pair is ever emitted a second time. -/
theorem iterRun_progress_no_reemission :
    ∀ (find : Nat → Option (Nat × Nat)) (L : Nat),
    (∀ i s e, find i = some (s, e) → i ≤ s ∧ s ≤ e) →
    (∀ a s e b, find a = some (s, e) → a ≤ b → b ≤ s →
      find b = some (s, e)) →
    ∀ n, (iterRun find L n).1.last_end ≤
        (iterRun find L (n + 1)).1.last_end ∧
      List.Pairwise (fun p q : Nat × Nat => p ≠ q)
        (iterRun find L n).2 := by
  intro find L hF1 hF2 n
  constructor
  · exact iterNextGo_last_end_mono find L hF1 (L + 2)
      (iterRun find L n).1
  · refine List.Pairwise.imp ?_ (iterRun_traceOK find L hF1 hF2 n).2.1
    intro a b hlt heq
    rw [heq] at hlt
    exact lt_irrefl _ hlt

theorem iterRun_progress_no_reemission_witness :
    (iterRun findAStarAA 2 1).1.last_end ≤
      (iterRun findAStarAA 2 2).1.last_end ∧
    List.Pairwise (fun p q : Nat × Nat => p ≠ q)
      (iterRun findAStarAA 2 1).2 := by
  have hF1 : ∀ i s e, findAStarAA i = some (s, e) → i ≤ s ∧ s ≤ e := by
    intro i s e h
    by_cases hi : i ≤ 2
    · simp [findAStarAA, hi] at h
      omega
    · simp [findAStarAA, hi] at h
  have hF2 : ∀ a s e b, findAStarAA a = some (s, e) → a ≤ b → b ≤ s →
      findAStarAA b = some (s, e) := by
    intro a s e b ha hab hbs
    by_cases hA : a ≤ 2
    · simp [findAStarAA, hA] at ha
      have hb : b ≤ 2 := by omega
      simp [findAStarAA, hb]
      omega
    · simp [findAStarAA, hA] at ha
  exact iterRun_progress_no_reemission findAStarAA 2 hF1 hF2 1
